import Mathlib

/-!
Verification development for the form-autofill engine of this repository.

The content script exists in several generations in the repository:
* `src/src/content.ts` (the gated variant, embedded below in namespace
  `ContentTs`): its `fill` takes an `allowDemo` flag and skips semantic keys
  under `demographics.`; its `get` is the plain dot-path walk.
* the full-featured content script (`src/unnamed/part_003`, embedded in
  namespace `Autofill`): per-element user-edited flags set by capture-phase
  input/change listeners, a computed profile resolver (`get` with full name,
  link lookup, most-recent education), an exact-first select writer, and a
  mutation watcher that schedules a debounced fill only for batches with
  added nodes.

Modelling conventions:
* JavaScript values are embedded as the inductive `JSValue`; numbers are
  modelled as integers (the profile data the engine reads is strings,
  string sequences and booleans; no claim depends on float semantics).
  Property access models the data members of every value — object fields,
  array elements, and the index and `length` members of strings and
  arrays (`"xy".length` is `2`); function-valued prototype members
  (methods) are not data and are outside the model.
* Machine times produced by `new Date(y, mo, d).getTime()` are embedded as
  `ETime`: either an extreme sentinel or a day count obtained from the
  proleptic Gregorian civil calendar with JavaScript's month/day rollover
  semantics.  The day count is strictly monotone in the instant denoted by
  the local-midnight `Date`, so comparisons and equalities of `getTime()`
  values are preserved exactly.
* Two write-path models are developed.  The per-element model (`Elem`,
  `setValue`, `fill`) gives each checkbox/radio element its own copy of
  its same-name group and reports dispatched events as data; it serves the
  claims about a single element's skip/write behaviour, where no
  cross-element effect arises.  The page-level model (`PInput`, `pFill`)
  is the faithful composition: one shared document list, the document-wide
  `input[name=...]` group query (`groupIdx`), clicks that mutate sibling
  elements (`clickAt`), and the capture-phase input/change listeners
  applied to every event the fill itself dispatches — they check no
  `isTrusted`, so the fill's own synthetic events set the user-edited
  flag, exactly as in the browser.  The DOM-tree model in the `Dom`
  section covers label resolution and the shadow-root claims.
* The transition `userEditEvent` is a direct human edit caught by the
  capture listeners (a human edit also dispatches input/change).
-/

namespace Autofill

/-- Splits a character list at every separator character, keeping empty
tokens, exactly as `String.prototype.split` with a one-character (or
single-class) separator does: `"a..b"` gives `["a", "", "b"]` and `""`
gives `[""]`. -/
def splitPred (p : Char → Bool) : List Char → List (List Char)
  | [] => [[]]
  | c :: rest =>
    if p c then [] :: splitPred p rest
    else
      match splitPred p rest with
      | t :: ts => (c :: t) :: ts
      | [] => [[c]]

/-- String version of `splitPred`. -/
def splitStr (p : Char → Bool) (s : String) : List String :=
  (splitPred p s.data).map (fun l => ⟨l⟩)

/-- `String.prototype.toLowerCase` (ASCII case folding; the descriptor
and label data the engine handles is ASCII). -/
def jsToLower (s : String) : String :=
  ⟨s.data.map Char.toLower⟩

/-- `String.prototype.trim`: strip leading and trailing whitespace. -/
def jsTrim (s : String) : String :=
  ⟨((s.data.dropWhile Char.isWhitespace).reverse.dropWhile Char.isWhitespace).reverse⟩

/-- `norm` from the content script: lower-case, collapse runs of whitespace
to a single space, trim the ends.  (Implemented by splitting on whitespace
and re-joining the non-empty tokens, which is the same function.) -/
def norm (s : String) : String :=
  String.intercalate " " ((splitStr (fun c => c.isWhitespace) (jsToLower s)).filter (fun t => t ≠ ""))

/-- `String.prototype.startsWith`. -/
def strStartsWith (s pre : String) : Bool :=
  decide (pre.data <+: s.data)

/-- JavaScript `String.prototype.includes` (substring containment). -/
def jsIncludes (s pat : String) : Bool :=
  decide (pat.toList <:+: s.toList)

/-- Case-insensitive containment test, the embedding of regexes of the form
`/word/i` (and alternations of plain words) used by the source. -/
def containsCI (pat s : String) : Bool :=
  jsIncludes (jsToLower s) (jsToLower pat)

/-- JavaScript values, as the engine's profile data model.  Prototype
members are not modelled; numbers are integers (see header). -/
inductive JSValue where
  | undefined
  | null
  | bool (b : Bool)
  | num (n : Int)
  | str (s : String)
  | arr (elems : List JSValue)
  | obj (fields : List (String × JSValue))

namespace JSValue

/-- JavaScript truthiness: the falsy values among the modelled ones. -/
def falsy : JSValue → Bool
  | undefined => true
  | null => true
  | bool b => !b
  | num n => n == 0
  | str s => s == ""
  | _ => false

/-- Loose equality with `null` (`v == null`): true exactly on
`undefined` and `null`. -/
def looseNull : JSValue → Bool
  | undefined => true
  | null => true
  | _ => false

mutual

/-- JavaScript `String(v)` coercion on the modelled values.  Array elements
that are `undefined`/`null` stringify to the empty string, as in
`Array.prototype.toString`. -/
def jsString : JSValue → String
  | undefined => "undefined"
  | null => "null"
  | bool true => "true"
  | bool false => "false"
  | num n => toString n
  | str s => s
  | arr l => String.intercalate "," (jsStringList l)
  | obj _ => "[object Object]"

/-- Elementwise stringification used by array coercion. -/
def jsStringList : List JSValue → List String
  | [] => []
  | undefined :: vs => "" :: jsStringList vs
  | null :: vs => "" :: jsStringList vs
  | v :: vs => jsString v :: jsStringList vs

end

/-- A canonical array-index string: `"0"`, or digits without a leading zero
(JavaScript array access `a["01"]` does not hit index 1). -/
def isCanonicalIndex (s : String) : Bool :=
  s ≠ "" && s.toList.all (fun c => c.isDigit) && (s = "0" || s.data.head? ≠ some '0')

/-- Property access `v[k]`: object field lookup; array element lookup by
canonical index and the `length` member; string index access and the
`length` member (`"xy".length` is `2`, `"xy"["0"]` is `"x"`); `undefined`
otherwise.  Function-valued prototype members (methods) are not data and
are outside the model; JavaScript's `length` counts UTF-16 units, the
model counts characters (identical on the data the engine handles).
`undefined`/`null` receivers are handled by the optional chaining in
`optField` — plain access on them would throw, and the engine only ever
accesses properties through `?.`. -/
def getField : JSValue → String → JSValue
  | obj fields, k =>
    match fields.find? (fun p => p.1 == k) with
    | some p => p.2
    | none => undefined
  | arr l, k =>
    if k == "length" then num (Int.ofNat l.length)
    else if isCanonicalIndex k then
      match l.get? k.toNat! with
      | some v => v
      | none => undefined
    else undefined
  | str s, k =>
    if k == "length" then num (Int.ofNat s.length)
    else if isCanonicalIndex k then
      match s.data.get? k.toNat! with
      | some c => str ⟨[c]⟩
      | none => undefined
    else undefined
  | _, _ => undefined

/-- Optional chaining `v?.[k]` / `v?.k`: `undefined` when the receiver is
`undefined` or `null`, otherwise plain property access. -/
def optField (v : JSValue) (k : String) : JSValue :=
  if v.looseNull then undefined else v.getField k

end JSValue

open JSValue

/-- One step of the dot-path walk `(o, k) => o?.[k]`. -/
def walkStep (o : JSValue) (k : String) : JSValue := o.optField k

/-- The dot-path walk `path.split(".").reduce((o, k) => o?.[k], obj)`. -/
def walkPath (obj : JSValue) (keys : List String) : JSValue :=
  keys.foldl walkStep obj

/-- `get` of `src/src/content.ts` (and the default branch of the
full resolver): direct dot-separated path lookup over the profile. -/
def getDirect (obj : JSValue) (path : String) : JSValue :=
  walkPath obj (splitStr (fun c => c = '.') path)

/-! ### Dates and the education resolver (`src/unnamed/part_003`, `get`) -/

/-- Result of the permissive date regex
`^(\d{4})(?:-(\d{2}))?(?:-(\d{2}))?`: the year digits and the two optional
`-DD` groups. -/
structure ParsedYMD where
  year : Nat
  month : Option Nat
  day : Option Nat
deriving DecidableEq, Repr

/-- Reads `-DD` (a dash and exactly two digits) from the front of a
character list, as one optional group of the regex. -/
def readDashTwoDigits : List Char → Option (Nat × List Char)
  | '-' :: a :: b :: rest =>
    if a.isDigit && b.isDigit then
      some ((a.toNat - '0'.toNat) * 10 + (b.toNat - '0'.toNat), rest)
    else none
  | _ => none

/-- The anchored match of `^(\d{4})(?:-(\d{2}))?(?:-(\d{2}))?`: four leading
digits, then each optional group tried in turn (the groups have identical
shape, so regex backtracking cannot produce any other outcome). -/
def parseYMD (s : String) : Option ParsedYMD :=
  match s.toList with
  | c1 :: c2 :: c3 :: c4 :: rest =>
    if c1.isDigit && c2.isDigit && c3.isDigit && c4.isDigit then
      let y := (((c1.toNat - '0'.toNat) * 10 + (c2.toNat - '0'.toNat)) * 10 +
        (c3.toNat - '0'.toNat)) * 10 + (c4.toNat - '0'.toNat)
      match readDashTwoDigits rest with
      | some (mo, rest2) =>
        match readDashTwoDigits rest2 with
        | some (d, _) => some ⟨y, some mo, some d⟩
        | none => some ⟨y, some mo, none⟩
      | none =>
        -- the second optional group is tried at the same position; it has
        -- the same shape, so it fails here too
        some ⟨y, none, none⟩
    else none
  | _ => none

/-- Days since 1970-01-01 of the civil date `(y, m, d)` with `m ∈ 1..12`
(proleptic Gregorian; Hinnant's `days_from_civil`).  `d` may lie outside
the month; the result is offset linearly, matching `Date` day rollover. -/
def daysFromCivil (y m d : Int) : Int :=
  let y' := if m ≤ 2 then y - 1 else y
  let era := y'.fdiv 400
  let yoe := y' - era * 400
  let mp := (m + 9).emod 12
  let doy := (153 * mp + 2).fdiv 5 + d - 1
  let doe := yoe * 365 + yoe.fdiv 4 - yoe.fdiv 100 + doy
  era * 146097 + doe - 719468

/-- The day denoted by `new Date(y, mo, d)` (with `mo` 0-based and possibly
out of range, rolled over into adjacent years; `d` rolled over likewise;
years 0–99 mapped to 1900–1999 as the constructor does). -/
def jsDateDays (y mo d : Int) : Int :=
  let y2 := if 0 ≤ y && y ≤ 99 then y + 1900 else y
  let total := 12 * y2 + mo
  daysFromCivil (total.fdiv 12) (total.emod 12 + 1) d

/-- A `getTime()` result as the comparator sees it: negative infinity,
a finite local-midnight instant (represented by its civil day count, which
preserves order and equality of the instants), or positive infinity. -/
inductive ETime where
  | ninf
  | fin (days : Int)
  | pinf
deriving DecidableEq, Repr

/-- Strict order on `ETime`, the sign of subtraction on the numbers the
comparator subtracts. -/
def ETime.lt : ETime → ETime → Bool
  | ninf, ninf => false
  | ninf, _ => true
  | fin _, ninf => false
  | fin a, fin b => a < b
  | fin _, pinf => true
  | pinf, _ => false

/-- `toTime` of the resolver: falsy input is negative infinity, anything
containing "present" (case-insensitive) is positive infinity, then the
permissive regex; no match is negative infinity, otherwise the time of
`new Date(y, (m ?? "01") - 1, d ?? "01")`. -/
def toTime (v : JSValue) : ETime :=
  if v.falsy then .ninf
  else if containsCI "present" (jsString v) then .pinf
  else
    match parseYMD (jsString v) with
    | none => .ninf
    | some p =>
      .fin (jsDateDays (Int.ofNat p.year) (Int.ofNat (p.month.getD 1) - 1)
        (Int.ofNat (p.day.getD 1)))

/-- One scored education entry: the item plus its start/end times and the
ongoing flag (`!item?.end || /present/i.test(item?.end)`). -/
structure Scored where
  item : JSValue
  start : ETime
  stop : ETime
  ongoing : Bool

/-- Scores one education entry as `mostRecentEdu` does. -/
def scoreEdu (item : JSValue) : Scored :=
  let e := item.optField "end"
  { item := item
    start := toTime (item.optField "start")
    stop := toTime e
    ongoing := e.falsy || containsCI "present" (jsString e) }

/-- `eduBefore a b` holds when the comparator orders `a` strictly before
`b` (returns a negative number): ongoing entries first, then later end
time first, then later start time first. -/
def eduBefore (a b : Scored) : Bool :=
  if a.ongoing != b.ongoing then a.ongoing
  else if a.stop != b.stop then ETime.lt b.stop a.stop
  else ETime.lt b.start a.start

/-- First minimal element of a non-empty list under `eduBefore`; equals
the head of the stable sort by the comparator, hence `scored.sort(...)[0]`. -/
def chooseFirstMin (x : Scored) (l : List Scored) : Scored :=
  l.foldl (fun acc nxt => if eduBefore nxt acc then nxt else acc) x

/-- `mostRecentEdu` restricted to the already-extracted entry list. -/
def mostRecentEduList (l : List JSValue) : Option JSValue :=
  match l.map scoreEdu with
  | [] => none
  | s :: rest => some (chooseFirstMin s rest).item

/-- `mostRecentEdu` of the resolver: the education array of the profile
(`undefined` unless it is an array), scored and sorted; first item. -/
def mostRecentEdu (obj : JSValue) : Option JSValue :=
  match obj.optField "education" with
  | .arr l => mostRecentEduList l
  | _ => none

/-- `yyyymm` of the resolver: falsy values pass through; a leading
`YYYY-MM` is kept and the rest dropped; otherwise the value passes
through unchanged. -/
def yyyymm (v : JSValue) : JSValue :=
  if v.falsy then v
  else
    match parseYMD (jsString v) with
    | some ⟨y, some mo, _⟩ =>
      -- the regex ^(\d{4})-(\d{2}) matches exactly when the permissive
      -- parse finds a month group
      .str (padYear y ++ "-" ++ padTwo mo)
    | _ => v
where
  /-- Zero-padded two-digit rendering of a parsed group (the template
  re-emits the matched digits; parsed groups are < 100 and years < 10000,
  so padding reproduces the original digits). -/
  padTwo (n : Nat) : String :=
    if n < 10 then "0" ++ toString n else toString n
  /-- Four-digit year rendering. -/
  padYear (n : Nat) : String :=
    if n < 10 then "000" ++ toString n
    else if n < 100 then "00" ++ toString n
    else if n < 1000 then "0" ++ toString n
    else toString n

/-- The `fullName` helper: trimmed first and last name joined by one
space; `undefined` when both are empty. -/
def fullName (obj : JSValue) : JSValue :=
  let part (k : String) : String :=
    let v := (obj.optField "basics").optField k
    jsTrim (jsString (if v.looseNull then .str "" else v))
  let full := String.intercalate " "
    ([part "firstName", part "lastName"].filter (fun s => s ≠ ""))
  if full = "" then .undefined else .str full

/-- The `findLink` helper: first entry of the `links` array whose label
satisfies the pattern; its `url` field.  (In JavaScript a non-null,
non-array `links` would make `.find` throw; the claims only exercise the
array and absent cases, modelled here as absent.) -/
def findLink (obj : JSValue) (pat : String → Bool) : JSValue :=
  match obj.optField "links" with
  | .arr l =>
    match l.find? (fun e =>
      pat (jsString (if (e.optField "label").looseNull then .str "" else e.optField "label"))) with
    | some e => e.optField "url"
    | none => .undefined
  | _ => .undefined

/-- The end date of the most recent education entry
(`mostRecentEdu()?.end`), before the "present" rewrite. -/
def mostRecentEnd (obj : JSValue) : JSValue :=
  match mostRecentEdu obj with
  | some item => item.optField "end"
  | none => .undefined

/-- `get` of the full content script: the switch over reserved semantic
keys (computed derivations), falling back to the direct dot-path walk. -/
def get (obj : JSValue) (path : String) : JSValue :=
  match path with
  | "basics._fullName" => fullName obj
  | "links.linkedin" => findLink obj (fun s => containsCI "linkedin" s)
  | "links.github" => findLink obj (fun s => containsCI "github" s)
  | "links.website" => findLink obj (fun s =>
      containsCI "website" s || containsCI "portfolio" s || containsCI "personal" s)
  | "workAuth.usWorkAuthorization" => (obj.optField "demographics").optField "workAuthorization"
  | "workAuth.needsSponsorship" => (obj.optField "demographics").optField "needsSponsorship"
  | "demographics.race" =>
    match (obj.optField "demographics").optField "raceEthnicity" with
    | .arr l => .arr l
    | _ => .undefined
  | "demographics.veteran" => (obj.optField "demographics").optField "veteranStatus"
  | "education.mostRecent.school" =>
    match mostRecentEdu obj with
    | some item => item.optField "school"
    | none => .undefined
  | "education.mostRecent.degree" =>
    match mostRecentEdu obj with
    | some item => item.optField "degree"
    | none => .undefined
  | "education.mostRecent.field" =>
    match mostRecentEdu obj with
    | some item => item.optField "field"
    | none => .undefined
  | "education.mostRecent.start" =>
    yyyymm (match mostRecentEdu obj with
      | some item => item.optField "start"
      | none => .undefined)
  | "education.mostRecent.end" =>
    if containsCI "present" (jsString (mostRecentEnd obj)) then .str ""
    else yyyymm (mostRecentEnd obj)
  | _ => getDirect obj path

/-! ### Elements, the value writer and the fill orchestrator -/

/-- One option of a select control: machine value and displayed text. -/
structure SelOpt where
  value : String
  text : String
deriving DecidableEq, Repr

/-- One member of a same-name checkbox/radio group: its resolved label
text (`labelText(target)`), its raw `value` attribute, and its checked
state. -/
structure GroupMember where
  label : String
  value : String
  checked : Bool
deriving DecidableEq, Repr

/-- The writable state of a form element, by input category.  A
checkbox/radio element carries its whole same-name group (the list the
document-wide `input[name=...]` query returns; that query itself is
modelled over trees in the `Dom` section). -/
inductive Control where
  | text (value : String)
  | select (opts : List SelOpt) (value : String)
  | checkbox (members : List GroupMember)
  | radio (members : List GroupMember)
deriving DecidableEq, Repr

/-- A discovered form element: the user-edited dataset flag, visibility
(`offsetParent !== null`), the descriptor `candidates(el)` produces, the
control state, and whether the fill highlight outline has been applied. -/
structure Elem where
  userEdited : Bool
  visible : Bool
  descriptor : String
  control : Control
  highlighted : Bool
deriving DecidableEq, Repr

/-- The group state after a click on member `j` of a radio group: that
member becomes checked and every other member of the same-name group is
unchecked (native radio activation). -/
def radioSet : Nat → List GroupMember → List GroupMember
  | _, [] => []
  | 0, m :: ms => { m with checked := true } :: ms.map (fun x => { x with checked := false })
  | j + 1, m :: ms => { m with checked := false } :: radioSet j ms

/-- The group state after a click on member `j` of a checkbox group: that
member's checked state is toggled. -/
def toggleAt : Nat → List GroupMember → List GroupMember
  | _, [] => []
  | 0, m :: ms => { m with checked := !m.checked } :: ms
  | j + 1, m :: ms => m :: toggleAt j ms

/-- The capture-phase document-level input/change listeners: a direct
human edit sets the sticky user-edited flag on the element. -/
def userEditEvent (e : Elem) : Elem :=
  { e with userEdited := true }

/-- The normalized member label `norm(labelText(target) || target.value)`
used by the group branches. -/
def memberLabel (m : GroupMember) : String :=
  norm (if m.label ≠ "" then m.label else m.value)

/-- The desired-value list
`Array.isArray(value) ? value.map(v => norm(String(v))) : [norm(String(value))]`. -/
def wantList (value : JSValue) : List String :=
  match value with
  | .arr l => l.map (fun v => norm (jsString v))
  | v => [norm (jsString v)]

/-- Whether one wanted string matches a member label:
`w === lbl || lbl.includes(w)`. -/
def wantMatches (want : List String) (lbl : String) : Bool :=
  want.any (fun w => w == lbl || jsIncludes lbl w)

/-- Exact select-option predicate:
`norm(o.value) === norm(v) || norm(o.text) === norm(v)`. -/
def optExact (v : String) (o : SelOpt) : Bool :=
  norm o.value == norm v || norm o.text == norm v

/-- Fallback select-option predicate: `norm(o.text).includes(norm(v))`. -/
def optContains (v : String) (o : SelOpt) : Bool :=
  jsIncludes (norm o.text) (norm v)

/-- `String(value ?? "")`: the string the writer puts into text and
select elements (`undefined`/`null` coerce through `?? ""`). -/
def jsStringOrEmpty (v : JSValue) : String :=
  jsString (if v.looseNull then .str "" else v)

/-- `setValue` of the full content script.  Returns the updated element,
the success flag, and the names of the events the write dispatched on the
element.  A user-edited element is refused up front.  Radio: activate the
first matching member (a click checks it and unchecks the rest of the
group) unless it is already checked.  Checkbox: toggle every member whose
state differs from the desired state; success iff at least one toggled.
Select: exact value/text match first, then displayed-text containment;
set the value and dispatch `change`.  Text: always write and dispatch
`input` and `change`. -/
def setValue (e : Elem) (value : JSValue) : Elem × Bool × List String :=
  if e.userEdited then (e, false, [])
  else
    match e.control with
    | .radio members =>
      let want := wantList value
      match members.findIdx? (fun m => wantMatches want (memberLabel m)) with
      | some j =>
        if (members.get? j).any (fun m => m.checked) then (e, true, [])
        else ({ e with control := .radio (radioSet j members) }, true, ["click"])
      | none => (e, false, [])
    | .checkbox members =>
      let want := wantList value
      let members' := members.map (fun m =>
        if m.checked != wantMatches want (memberLabel m) then
          { m with checked := !m.checked }
        else m)
      let clicked := members.countP (fun m => m.checked != wantMatches want (memberLabel m))
      if clicked > 0 then ({ e with control := .checkbox members' }, true, ["click"])
      else (e, false, [])
    | .select opts _ =>
      let v := jsTrim (jsStringOrEmpty value)
      let exact := opts.find? (optExact v)
      let candidate := match exact with
        | some o => some o
        | none => opts.find? (optContains v)
      match candidate with
      | some o => ({ e with control := .select opts o.value }, true, ["change"])
      | none => (e, false, [])
    | .text _ =>
      ({ e with control := .text (jsStringOrEmpty value) }, true, ["input", "change"])

/-- An alias table: semantic keys in table order, each with its pattern
set (a pattern is a boolean test on the descriptor, as `RegExp.test` is).
The concrete `FIELD_ALIASES` data lives in a module that only the content
scripts import; the matcher below is its loop over `Object.entries`. -/
abbrev AliasTable : Type := List (String × List (String → Bool))

/-- `matchKey`: for each key in table order, if some pattern of the key
matches the descriptor, return that key; otherwise no key. -/
def matchKey (table : AliasTable) (descriptor : String) : Option String :=
  match table with
  | [] => none
  | (k, regs) :: rest =>
    if regs.any (fun r => r descriptor) then some k
    else matchKey rest descriptor

/-- Whether a resolved value is skipped by the fill loop:
`val == null || val === ""`. -/
def absentValue (v : JSValue) : Bool :=
  v.looseNull ||
    match v with
    | .str s => s == ""
    | _ => false

/-- One iteration of the fill loop of the full content script on one
element: hidden elements were filtered out before the loop, user-edited
elements are skipped, unmatched elements are skipped, absent values are
skipped; a successful write highlights the element and counts it. -/
def fillStep (table : AliasTable) (profile : JSValue) (e : Elem) : Elem × Bool :=
  if !e.visible then (e, false)
  else if e.userEdited then (e, false)
  else
    match matchKey table e.descriptor with
    | none => (e, false)
    | some key =>
      let val := get profile key
      if absentValue val then (e, false)
      else
        let r := setValue e val
        if r.2.1 then ({ r.1 with highlighted := true }, true) else (r.1, false)

/-- One fill pass of the full content script: every element is processed
by `fillStep` (writes touch only the element itself in this model, since
each group is owned by its element), and the reported count is the number
of successful writes. -/
def fill (table : AliasTable) (profile : JSValue) (elems : List Elem) : List Elem × Nat :=
  (elems.map (fun e => (fillStep table profile e).1),
    elems.countP (fun e => (fillStep table profile e).2))



end Autofill

namespace ContentTs

open Autofill Autofill.JSValue

/-- `setValue` of `src/src/content.ts`: no user-edited guard; a single
checkbox/radio branch that clicks the first group member whose normalized
label (or value) contains the normalized desired string; a select branch
whose single search accepts a displayed-text containment or an exact
machine-value match, whichever option comes first; text always written. -/
def setValue (e : Elem) (value : JSValue) : Elem × Bool × List String :=
  let v := jsString value
  match e.control with
  | .radio members =>
    match members.findIdx? (fun m => jsIncludes (memberLabel m) (Autofill.norm v)) with
    | some j => ({ e with control := .radio (radioSet j members) }, true, ["click"])
    | none => (e, false, [])
  | .checkbox members =>
    match members.findIdx? (fun m => jsIncludes (memberLabel m) (Autofill.norm v)) with
    | some j => ({ e with control := .checkbox (toggleAt j members) }, true, ["click"])
    | none => (e, false, [])
  | .select opts _ =>
    match opts.find? (fun o =>
      jsIncludes (Autofill.norm o.text) (Autofill.norm v) ||
        Autofill.norm o.value == Autofill.norm v) with
    | some o => ({ e with control := .select opts o.value }, true, ["change"])
    | none => (e, false, [])
  | .text _ => ({ e with control := .text v }, true, ["input", "change"])

/-- One iteration of the fill loop of `src/src/content.ts`: the
demographics gate sits between key matching and value resolution, and the
resolver is the direct dot-path `get`. -/
def fillStep (table : AliasTable) (profile : JSValue) (allowDemo : Bool) (e : Elem) :
    Elem × Bool :=
  if !e.visible then (e, false)
  else
    match matchKey table e.descriptor with
    | none => (e, false)
    | some key =>
      if !allowDemo && strStartsWith key "demographics." then (e, false)
      else
        let val := getDirect profile key
        if absentValue val then (e, false)
        else
          let r := setValue e val
          if r.2.1 then ({ r.1 with highlighted := true }, true) else (r.1, false)

/-- One fill pass of `src/src/content.ts` (`fill(profile, allowDemo)`). -/
def fill (table : AliasTable) (profile : JSValue) (allowDemo : Bool) (elems : List Elem) :
    List Elem × Nat :=
  (elems.map (fun e => (fillStep table profile allowDemo e).1),
    elems.countP (fun e => (fillStep table profile allowDemo e).2))

end ContentTs

namespace Autofill

/-! ### The change watcher (`scheduleFill` / `watchForChanges`) -/

/-- One mutation record of a batch, as far as the watcher inspects it:
how many nodes were added. -/
structure MutRecord where
  addedNodes : Nat
deriving DecidableEq, Repr

/-- The debounce state owned by the closure `scheduleFill` returns: the
armed timeout handles (at most one by construction), a supply of fresh
handles, and the number of fill passes run so far. -/
structure Debounce where
  timers : List Nat
  fresh : Nat
  runs : Nat
deriving DecidableEq, Repr

/-- The thunk `scheduleFill` returns: clear any previously armed timeout,
then arm a new one. -/
def runDebounced (s : Debounce) : Debounce :=
  { timers := [s.fresh], fresh := s.fresh + 1, runs := s.runs }

/-- The mutation callback of `watchForChanges`: schedule a debounced fill
exactly when the batch contains a record with added nodes. -/
def onMutations (muts : List MutRecord) (s : Debounce) : Debounce :=
  if muts.any (fun m => m.addedNodes > 0) then runDebounced s else s

/-- The debounce delay elapsing: every still-armed timeout fires and runs
its fill pass. -/
def elapse (s : Debounce) : Debounce :=
  { timers := [], fresh := s.fresh, runs := s.runs + s.timers.length }

/-! ### The document tree, shadow roots, and label resolution

`labelText`, `candidates` and the group query of `setValue` are modelled
over an explicit tree of elements.  Each node may host an open shadow
root (`shadow`); document-scope queries (`document.getElementById`,
`document.querySelector`, `document.querySelectorAll`) traverse children
in document order and never descend into shadow roots, while
`Element.closest` walks the ancestor chain inside the element's own tree
(it stops at the shadow root and never crosses to the host). -/

mutual

/-- A DOM element: tag, attributes, rendered text, child elements, and
the element list of an attached open shadow root (empty if none). -/
inductive DomNode where
  | mk (tag : String) (attrs : List (String × String)) (textContent : String)
       (children : DomTree) (shadow : DomTree)

/-- A sequence of sibling elements. -/
inductive DomTree where
  | nil
  | cons (head : DomNode) (tail : DomTree)

end

/-- The tag of an element. -/
def DomNode.tag : DomNode → String
  | .mk t _ _ _ _ => t

/-- The attribute list of an element. -/
def DomNode.attrs : DomNode → List (String × String)
  | .mk _ a _ _ _ => a

/-- The rendered text (`innerText`) of an element. -/
def DomNode.textContent : DomNode → String
  | .mk _ _ s _ _ => s

/-- The child elements of an element. -/
def DomNode.children : DomNode → DomTree
  | .mk _ _ _ c _ => c

/-- The open shadow root attached to an element (empty tree if none). -/
def DomNode.shadow : DomNode → DomTree
  | .mk _ _ _ _ s => s

/-- `getAttribute`: the attribute value, or absent. -/
def getAttr (n : DomNode) (k : String) : Option String :=
  (n.attrs.find? (fun p => p.1 == k)).map (fun p => p.2)

mutual

/-- `document.getElementById` restricted to one node: the node itself or
a match among its children; shadow roots are not searched. -/
def findByIdN (n : DomNode) (i : String) : Option DomNode :=
  match n with
  | .mk _ attrs _ children _ =>
    if (attrs.find? (fun p => p.1 == "id")).map (fun p => p.2) == some i then some n
    else findByIdT children i

/-- `document.getElementById` over a sibling sequence, document order. -/
def findByIdT (t : DomTree) (i : String) : Option DomNode :=
  match t with
  | .nil => none
  | .cons h rest =>
    match findByIdN h i with
    | some r => some r
    | none => findByIdT rest i

end

mutual

/-- `document.querySelector("label[for=...]")` restricted to one node:
first `label` element carrying the given `for` attribute, document order;
shadow roots are not searched. -/
def queryLabelForN (n : DomNode) (i : String) : Option DomNode :=
  match n with
  | .mk tag attrs _ children _ =>
    if tag == "label" && (attrs.find? (fun p => p.1 == "for")).map (fun p => p.2) == some i then
      some n
    else queryLabelForT children i

/-- `document.querySelector("label[for=...]")` over a sibling sequence. -/
def queryLabelForT (t : DomTree) (i : String) : Option DomNode :=
  match t with
  | .nil => none
  | .cons h rest =>
    match queryLabelForN h i with
    | some r => some r
    | none => queryLabelForT rest i

end

mutual

/-- `querySelector(tag)` restricted to one node: first element with the
tag, document order; shadow roots are not searched. -/
def queryTagN (n : DomNode) (tagName : String) : Option DomNode :=
  match n with
  | .mk tag _ _ children _ =>
    if tag == tagName then some n else queryTagT children tagName

/-- `querySelector(tag)` over a sibling sequence. -/
def queryTagT (t : DomTree) (tagName : String) : Option DomNode :=
  match t with
  | .nil => none
  | .cons h rest =>
    match queryTagN h tagName with
    | some r => some r
    | none => queryTagT rest tagName

end

mutual

/-- `document.querySelectorAll("input[name=...]")` restricted to one
node: the same-name group members, document order; shadow roots are not
searched. -/
def queryInputsByNameN (n : DomNode) (nm : String) : List DomNode :=
  match n with
  | .mk tag attrs _ children _ =>
    (if tag == "input" && (attrs.find? (fun p => p.1 == "name")).map (fun p => p.2) == some nm
     then [n] else []) ++ queryInputsByNameT children nm

/-- `document.querySelectorAll("input[name=...]")` over a sibling
sequence. -/
def queryInputsByNameT (t : DomTree) (nm : String) : List DomNode :=
  match t with
  | .nil => []
  | .cons h rest => queryInputsByNameN h nm ++ queryInputsByNameT rest nm

end

mutual

/-- Replaces every shadow root in the node by the empty tree. -/
def stripShadowsN (n : DomNode) : DomNode :=
  match n with
  | .mk tag attrs text children _ => .mk tag attrs text (stripShadowsT children) .nil

/-- Replaces every shadow root in the sequence by the empty tree. -/
def stripShadowsT (t : DomTree) : DomTree :=
  match t with
  | .nil => .nil
  | .cons h rest => .cons (stripShadowsN h) (stripShadowsT rest)

end

/-- Indexing among siblings. -/
def treeGet (t : DomTree) (i : Nat) : Option DomNode :=
  match t, i with
  | .nil, _ => none
  | .cons h _, 0 => some h
  | .cons _ rest, n + 1 => treeGet rest n

/-- One step of a location path: the sibling index, and whether the path
continues into that element's shadow root rather than its children. -/
structure PathStep where
  idx : Nat
  intoShadow : Bool
deriving DecidableEq, Repr

/-- Locates the element a path denotes, together with its ancestor chain
(nearest first) inside its own tree: entering a shadow root resets the
chain, because `closest` never crosses a shadow boundary toward the
host. -/
def navigate (t : DomTree) (acc : List DomNode) : List PathStep → Option (DomNode × List DomNode)
  | [] => none
  | [s] =>
    if s.intoShadow then none
    else (treeGet t s.idx).map (fun n => (n, acc))
  | s :: rest =>
    match treeGet t s.idx with
    | none => none
    | some n =>
      if s.intoShadow then navigate n.shadow [] rest
      else navigate n.children (n :: acc) rest

/-- `el.closest(tag)`: the element itself, else the nearest ancestor with
the tag, inside the element's own tree. -/
def closestTag (el : DomNode) (anc : List DomNode) (tagName : String) : Option DomNode :=
  if el.tag == tagName then some el else anc.find? (fun n => n.tag == tagName)

/-- `String.prototype.split(/\s+/)`: the maximal non-whitespace runs,
plus an empty token at either end when the string starts or ends with
whitespace (as the JavaScript regex split produces). -/
def splitWsRuns (s : String) : List String :=
  let toks := (splitStr (fun c => c.isWhitespace) s).filter (fun t => t ≠ "")
  let toks := if (s.data.head?.map Char.isWhitespace).getD false then "" :: toks else toks
  if (s.data.getLast?.map Char.isWhitespace).getD false then toks ++ [""] else toks

/-- `labelText` of the full content script, over the document tree `doc`
and an element located with ancestor chain `anc`: the label with a
matching `for` (a document-scope query), the closest ancestor label, the
element's `aria-label`, the texts of the elements the `aria-labelledby`
ids reference (document-scope lookups), and the legend of the closest
ancestor fieldset — all non-empty parts joined by single spaces. -/
def labelText (doc : DomTree) (el : DomNode) (anc : List DomNode) : String :=
  let id := (getAttr el "id").getD ""
  let ariaLabel := (getAttr el "aria-label").getD ""
  let byText :=
    match getAttr el "aria-labelledby" with
    | some s =>
      if s = "" then ""
      else String.intercalate " "
        ((splitWsRuns s).map (fun i => ((findByIdT doc i).map DomNode.textContent).getD ""))
    | none => ""
  let forLabel :=
    if id ≠ "" then ((queryLabelForT doc id).map DomNode.textContent).getD "" else ""
  let parentLbl := ((closestTag el anc "label").map DomNode.textContent).getD ""
  let legend :=
    match closestTag el anc "fieldset" with
    | some fs => ((queryTagT fs.children "legend").map DomNode.textContent).getD ""
    | none => ""
  String.intercalate " " ([forLabel, parentLbl, ariaLabel, byText, legend].filter (fun s => s ≠ ""))

/-- `candidates` of the full content script: `name`, `id`, `placeholder`,
the associated label text, and `aria-label`; non-blank entries normalized
and joined by the separator. -/
def candidates (doc : DomTree) (el : DomNode) (anc : List DomNode) : String :=
  let arr : List (Option String) :=
    [getAttr el "name", getAttr el "id", getAttr el "placeholder",
      some (labelText doc el anc), getAttr el "aria-label"]
  String.intercalate " | "
    (((arr.filterMap id).filter (fun s => jsTrim s ≠ "")).map norm)


end Autofill

namespace Autofill

open JSValue

/-! ### Helper lemmas -/

/-- A user-edited element is skipped by the fill loop unchanged. -/
lemma fillStep_userEdited (table : AliasTable) (profile : JSValue) (e : Elem)
    (h : e.userEdited = true) : fillStep table profile e = (e, false) := by
  unfold fillStep
  cases hv : e.visible <;> simp [hv, h]

/-- An element matching no key is skipped by the fill loop unchanged. -/
lemma fillStep_no_key (table : AliasTable) (profile : JSValue) (e : Elem)
    (h : matchKey table e.descriptor = none) : fillStep table profile e = (e, false) := by
  unfold fillStep
  cases hv : e.visible <;> cases hu : e.userEdited <;> simp [hv, hu, h]

/-- An element whose resolved value is absent is skipped unchanged. -/
lemma fillStep_absent (table : AliasTable) (profile : JSValue) (e : Elem) (key : String)
    (hk : matchKey table e.descriptor = some key)
    (ha : absentValue (get profile key) = true) :
    fillStep table profile e = (e, false) := by
  unfold fillStep
  cases hv : e.visible <;> cases hu : e.userEdited <;> simp [hv, hu, hk, ha]

/-- A successful key match is the first table entry with a matching
pattern: the table splits at that entry, and no earlier entry has any
matching pattern. -/
lemma matchKey_some_split (c : String) (k : String) :
    ∀ table : AliasTable, matchKey table c = some k →
      ∃ pre regs post, table = pre ++ (k, regs) :: post ∧
        regs.any (fun r => r c) = true ∧
        ∀ p ∈ pre, p.2.any (fun r => r c) = false := by
  intro table
  induction table with
  | nil => intro h; simp [matchKey] at h
  | cons hd tl ih =>
    obtain ⟨k', regs'⟩ := hd
    intro h
    unfold matchKey at h
    by_cases hm : regs'.any (fun r => r c) = true
    · rw [if_pos hm] at h
      obtain rfl : k' = k := by injection h
      exact ⟨[], regs', tl, rfl, hm, by simp⟩
    · rw [if_neg hm] at h
      obtain ⟨pre, regs, post, htl, hany, hpre⟩ := ih h
      refine ⟨(k', regs') :: pre, regs, post, by rw [htl]; rfl, hany, ?_⟩
      intro p hp
      rcases List.mem_cons.mp hp with rfl | hp'
      · exact Bool.eq_false_iff.mpr hm
      · exact hpre p hp'

/-- A failed match means no table entry has any matching pattern. -/
lemma matchKey_none_all (c : String) :
    ∀ table : AliasTable, matchKey table c = none →
      ∀ p ∈ table, p.2.any (fun r => r c) = false := by
  intro table
  induction table with
  | nil => intro _ p hp; simp at hp
  | cons hd tl ih =>
    obtain ⟨k', regs'⟩ := hd
    intro h p hp
    unfold matchKey at h
    by_cases hm : regs'.any (fun r => r c) = true
    · rw [if_pos hm] at h; cases h
    · rw [if_neg hm] at h
      rcases List.mem_cons.mp hp with rfl | hp'
      · exact Bool.eq_false_iff.mpr hm
      · exact ih h p hp'

/-- C1.  In the gated fill (`src/src/content.ts`), when the
demographics-allowed flag of the inbound message is false, an element
whose matched semantic key lies under the demographics category is never
written: the pass leaves it exactly as it was (and its step reports no
success), even if a value is present at the resolved key. -/
theorem C1_demographics_gate (table : AliasTable) (profile : JSValue) (elems : List Elem)
    (i : Nat) (e : Elem) (k : String)
    (he : elems.get? i = some e)
    (hk : matchKey table e.descriptor = some k)
    (hd : strStartsWith k "demographics." = true) :
    ((ContentTs.fill table profile false elems).1).get? i = some e ∧
    ContentTs.fillStep table profile false e = (e, false) := by
  have hstep : ContentTs.fillStep table profile false e = (e, false) := by
    unfold ContentTs.fillStep
    cases hv : e.visible <;> simp [hv, hk, hd]
  have hmap : ((ContentTs.fill table profile false elems).1).get? i =
      (elems.get? i).map (fun x => (ContentTs.fillStep table profile false x).1) := by
    simp [ContentTs.fill, List.get?_map]
  refine ⟨?_, hstep⟩
  rw [hmap, he]
  simp [hstep]

/-- Witness for C1 at a concrete input: a visible element matching the
`demographics.veteran` key with a present value is untouched when the
flag is false. -/
theorem C1_demographics_gate_witness :
    ((ContentTs.fill [("demographics.veteran", [fun c => c == "vet"])]
        (.obj [("demographics", .obj [("veteran", .str "yes")])]) false
        [{ userEdited := false, visible := true, descriptor := "vet",
           control := .text "", highlighted := false }]).1).get? 0 =
      some { userEdited := false, visible := true, descriptor := "vet",
             control := .text "", highlighted := false } ∧
    ContentTs.fillStep [("demographics.veteran", [fun c => c == "vet"])]
        (.obj [("demographics", .obj [("veteran", .str "yes")])]) false
        { userEdited := false, visible := true, descriptor := "vet",
          control := .text "", highlighted := false } =
      ({ userEdited := false, visible := true, descriptor := "vet",
         control := .text "", highlighted := false }, false) :=
  C1_demographics_gate _ _ _ 0 _ "demographics.veteran" rfl rfl rfl

/-! ### C3: absent values are skipped; "present" end dates resolve empty -/

/-- C3.  An element whose resolved value is absent (`undefined`, `null`
or the empty string) is neither written nor counted by the fill step;
`absentValue` is precisely that test; a most-recent education end date
containing "present" (case-insensitively) resolves to the empty string;
hence an end-date element is never overwritten with the word "present" —
its fill step does nothing. -/
theorem C3_absent_value_skip (table : AliasTable) (profile : JSValue) (e : Elem)
    (key : String) :
    (matchKey table e.descriptor = some key →
      absentValue (get profile key) = true →
      fillStep table profile e = (e, false)) ∧
    (absentValue .undefined = true ∧ absentValue .null = true ∧ absentValue (.str "") = true) ∧
    (∀ p : JSValue, containsCI "present" (jsString (mostRecentEnd p)) = true →
      get p "education.mostRecent.end" = .str "") ∧
    (matchKey table e.descriptor = some "education.mostRecent.end" →
      containsCI "present" (jsString (mostRecentEnd profile)) = true →
      fillStep table profile e = (e, false)) := by
  have hend : ∀ p : JSValue, get p "education.mostRecent.end" =
      if containsCI "present" (jsString (mostRecentEnd p)) then .str ""
      else yyyymm (mostRecentEnd p) := fun _ => rfl
  refine ⟨fun hk ha => fillStep_absent table profile e key hk ha,
    ⟨rfl, rfl, rfl⟩, fun p hp => ?_, fun hk hp => ?_⟩
  · rw [hend, if_pos hp]
  · apply fillStep_absent table profile e _ hk
    rw [hend, if_pos hp]
    rfl

/-- Witness for C3 at a concrete input: with a profile whose only
education entry ends "Present", the end-date element is skipped
unchanged. -/
theorem C3_absent_value_skip_witness :
    matchKey [("education.mostRecent.end", [fun c => c == "end date"])] "end date" =
      some "education.mostRecent.end" ∧
    containsCI "present" (jsString (mostRecentEnd
      (.obj [("education", .arr [.obj [("end", .str "Present")]])]))) = true ∧
    fillStep [("education.mostRecent.end", [fun c => c == "end date"])]
      (.obj [("education", .arr [.obj [("end", .str "Present")]])])
      { userEdited := false, visible := true, descriptor := "end date",
        control := .text "2019-05", highlighted := false } =
      ({ userEdited := false, visible := true, descriptor := "end date",
         control := .text "2019-05", highlighted := false }, false) :=
  ⟨rfl, rfl,
    (C3_absent_value_skip [("education.mostRecent.end", [fun c => c == "end date"])]
      (.obj [("education", .arr [.obj [("end", .str "Present")]])])
      { userEdited := false, visible := true, descriptor := "end date",
        control := .text "2019-05", highlighted := false }
      "education.mostRecent.end").2.2.2 rfl rfl⟩

/-! ### C8: first-match-wins key matching; silent skip on no match -/

/-- C8.  The key matcher returns the first key, in table order, one of
whose patterns matches the descriptor (so each element maps to at most
one semantic key, being an `Option`); when it returns a key, the table
splits into earlier entries none of whose patterns match, the returned
key, and the rest; when it returns none, no entry matches at all, and
the fill step skips the element silently with no state change and no
count. -/
theorem C8_first_match_wins (table : AliasTable) (c : String) (k : String)
    (profile : JSValue) (e : Elem) :
    (matchKey table c = some k →
      ∃ pre regs post, table = pre ++ (k, regs) :: post ∧
        regs.any (fun r => r c) = true ∧
        ∀ p ∈ pre, p.2.any (fun r => r c) = false) ∧
    (matchKey table c = none → ∀ p ∈ table, p.2.any (fun r => r c) = false) ∧
    (matchKey table e.descriptor = none → fillStep table profile e = (e, false)) :=
  ⟨matchKey_some_split c k table, matchKey_none_all c table,
    fillStep_no_key table profile e⟩

/-- Witness for C8 at a concrete input: with a two-entry table whose
entries both match, the first key wins; an element matching nothing is
left untouched. -/
theorem C8_first_match_wins_witness :
    (∃ pre regs post,
      ([("first", [fun c => c == "x"]), ("second", [fun _ => true])] : AliasTable) =
        pre ++ ("first", regs) :: post ∧
        regs.any (fun r => r "x") = true ∧
        ∀ p ∈ pre, p.2.any (fun r => r "x") = false) ∧
    fillStep [("first", [fun c => c == "x"])]
      .null { userEdited := false, visible := true, descriptor := "zzz",
              control := .text "t", highlighted := false } =
      ({ userEdited := false, visible := true, descriptor := "zzz",
         control := .text "t", highlighted := false }, false) := by
  refine ⟨(C8_first_match_wins
      [("first", [fun c => c == "x"]), ("second", [fun _ => true])]
      "x" "first" .null
      { userEdited := false, visible := true, descriptor := "zzz",
        control := .text "t", highlighted := false }).1 rfl,
    (C8_first_match_wins
      [("first", [fun c => c == "x"])]
      "zzz" "first" .null
      { userEdited := false, visible := true, descriptor := "zzz",
        control := .text "t", highlighted := false }).2.2 rfl⟩

end Autofill

namespace Autofill

open JSValue

/-- `find?` over a split list whose earlier part has no match returns the
marked element. -/
lemma find?_split_first {α : Type} (p : α → Bool) (pre post : List α) (o : α)
    (hpre : ∀ x ∈ pre, p x = false) (ho : p o = true) :
    (pre ++ o :: post).find? p = some o := by
  induction pre with
  | nil => simp [List.find?_cons_of_pos _ ho]
  | cons a t ih =>
    have ha : p a = false := hpre a (by simp)
    rw [List.cons_append, List.find?_cons_of_neg _ (by simp [ha])]
    exact ih (fun x hx => hpre x (List.mem_cons_of_mem _ hx))

/-- The select branch of `setValue`, with the scrutinees exposed. -/
lemma setValue_select (e : Elem) (opts : List SelOpt) (cur : String) (value : JSValue)
    (hue : e.userEdited = false) (hc : e.control = .select opts cur) :
    setValue e value =
      (match (match opts.find? (optExact (jsTrim (jsStringOrEmpty value))) with
        | some o => some o
        | none => opts.find? (optContains (jsTrim (jsStringOrEmpty value)))) with
      | some o => ({ e with control := .select opts o.value }, true, ["change"])
      | none => (e, false, [])) := by
  unfold setValue
  rw [hc]
  simp [hue]

/-! ### C5: select writer searches exact first, then containment -/

/-- C5.  For a (not user-edited) select element: when some option
exactly equals the desired value after normalization (by machine value
or displayed text), the writer picks the first such option, sets the
select's value to its machine value, dispatches a `change` event and
succeeds; when no option matches exactly but some option's displayed
text contains the desired value, the writer falls back to the first such
option, likewise dispatching `change`; when neither search matches, it
reports failure with no state change and no events. -/
theorem C5_select_exact_then_contains (e : Elem) (opts : List SelOpt) (cur v : String)
    (value : JSValue)
    (hue : e.userEdited = false) (hc : e.control = .select opts cur)
    (hv : v = jsTrim (jsStringOrEmpty value)) :
    (∀ pre o post, opts = pre ++ o :: post → optExact v o = true →
      (∀ x ∈ pre, optExact v x = false) →
      setValue e value = ({ e with control := .select opts o.value }, true, ["change"])) ∧
    ((∀ x ∈ opts, optExact v x = false) →
      ∀ pre o post, opts = pre ++ o :: post → optContains v o = true →
      (∀ x ∈ pre, optContains v x = false) →
      setValue e value = ({ e with control := .select opts o.value }, true, ["change"])) ∧
    ((∀ x ∈ opts, optExact v x = false) → (∀ x ∈ opts, optContains v x = false) →
      setValue e value = (e, false, [])) := by
  subst hv
  refine ⟨?_, ?_, ?_⟩
  · intro pre o post hsplit hexact hpre
    rw [setValue_select e opts cur value hue hc, hsplit,
      find?_split_first _ pre post o hpre hexact]
  · intro hnoexact pre o post hsplit hcont hpre
    have hnone : opts.find? (optExact (jsTrim (jsStringOrEmpty value))) = none :=
      List.find?_eq_none.mpr (fun x hx => by simp [hnoexact x hx])
    rw [setValue_select e opts cur value hue hc, hnone, hsplit,
      find?_split_first _ pre post o hpre hcont]
  · intro hnoexact hnocont
    have h1 : opts.find? (optExact (jsTrim (jsStringOrEmpty value))) = none :=
      List.find?_eq_none.mpr (fun x hx => by simp [hnoexact x hx])
    have h2 : opts.find? (optContains (jsTrim (jsStringOrEmpty value))) = none :=
      List.find?_eq_none.mpr (fun x hx => by simp [hnocont x hx])
    rw [setValue_select e opts cur value hue hc, h1, h2]

/-- Witness for C5 at a concrete input: with options whose first entry
only contains the desired text but whose second entry equals it exactly,
the writer picks the exact one (not the earlier containment match), sets
its machine value and dispatches `change`. -/
theorem C5_select_exact_then_contains_witness :
    setValue
      { userEdited := false, visible := true, descriptor := "d",
        control := .select [{ value := "x", text := "male and female" },
          { value := "male", text := "m" }] "", highlighted := false }
      (.str "male") =
      ({ userEdited := false, visible := true, descriptor := "d",
         control := .select [{ value := "x", text := "male and female" },
           { value := "male", text := "m" }] "male", highlighted := false },
        true, ["change"]) :=
  (C5_select_exact_then_contains
    { userEdited := false, visible := true, descriptor := "d",
      control := .select [{ value := "x", text := "male and female" },
        { value := "male", text := "m" }] "", highlighted := false }
    [{ value := "x", text := "male and female" }, { value := "male", text := "m" }]
    "" "male" (.str "male") rfl rfl rfl).1
    [{ value := "x", text := "male and female" }] { value := "male", text := "m" } []
    rfl rfl (by intro x hx; simp at hx; subst hx; rfl)

/-! ### C7: the debounced change watcher -/

/-- A burst of mutation batches, each containing added nodes, leaves
exactly one armed timer and the run count unchanged. -/
lemma watcher_burst : ∀ (batches : List (List MutRecord)) (s : Debounce),
    batches ≠ [] →
    (∀ b ∈ batches, b.any (fun m => m.addedNodes > 0) = true) →
    (batches.foldl (fun st b => onMutations b st) s).timers.length = 1 ∧
    (batches.foldl (fun st b => onMutations b st) s).runs = s.runs := by
  intro batches
  induction batches with
  | nil => intro s hne _; exact absurd rfl hne
  | cons b bs ih =>
    intro s _ hall
    have hb := hall b (List.mem_cons_self b bs)
    simp only [List.foldl_cons]
    have hstep : onMutations b s = runDebounced s := by simp [onMutations, hb]
    rw [hstep]
    cases bs with
    | nil => simp [runDebounced]
    | cons b2 bs2 =>
      exact ih _ (by simp) (fun x hx => hall x (List.mem_cons_of_mem _ hx))

/-- C7.  The mutation callback schedules a debounced fill exactly for
batches containing added nodes (others leave the state untouched);
scheduling replaces any previously armed timer (the timer list becomes
the single fresh handle); hence a burst of added-node batches inside one
debounce window arms exactly one timer, and when the delay elapses
exactly one additional fill pass runs — not one per batch or record. -/
theorem C7_debounce_single_pass (batches : List (List MutRecord)) (s : Debounce)
    (hne : batches ≠ [])
    (hall : ∀ b ∈ batches, b.any (fun m => m.addedNodes > 0) = true) :
    ((batches.foldl (fun st b => onMutations b st) s).timers.length = 1 ∧
     (elapse (batches.foldl (fun st b => onMutations b st) s)).runs = s.runs + 1) ∧
    (∀ b : List MutRecord, ∀ st : Debounce,
      b.any (fun m => m.addedNodes > 0) = false → onMutations b st = st) ∧
    (∀ st : Debounce, (runDebounced st).timers = [st.fresh] ∧
      (runDebounced st).runs = st.runs) := by
  obtain ⟨hlen, hruns⟩ := watcher_burst batches s hne hall
  refine ⟨⟨hlen, ?_⟩, fun b st hb => by simp [onMutations, hb], fun st => ⟨rfl, rfl⟩⟩
  simp [elapse, hlen, hruns]

/-- Witness for C7 at a concrete input: three added-node batches in one
window (one of them with two records) produce one armed timer and, after
the delay, exactly one additional pass. -/
theorem C7_debounce_single_pass_witness :
    (([[⟨2⟩], [⟨1⟩, ⟨3⟩], [⟨1⟩]] : List (List MutRecord)).foldl
        (fun st b => onMutations b st)
        { timers := [], fresh := 0, runs := 0 }).timers.length = 1 ∧
    (elapse (([[⟨2⟩], [⟨1⟩, ⟨3⟩], [⟨1⟩]] : List (List MutRecord)).foldl
        (fun st b => onMutations b st)
        { timers := [], fresh := 0, runs := 0 })).runs = 0 + 1 :=
  (C7_debounce_single_pass [[⟨2⟩], [⟨1⟩, ⟨3⟩], [⟨1⟩]]
    { timers := [], fresh := 0, runs := 0 } (by simp) (by decide)).1

end Autofill



namespace Autofill

open JSValue

/-! ### Order theory for the education comparator (claim C4) -/

/-- `ETime.lt` is irreflexive. -/
lemma elt_irrefl (a : ETime) : ETime.lt a a = false := by
  cases a <;> simp [ETime.lt]

/-- `ETime.lt` is transitive. -/
lemma elt_trans {a b c : ETime} (h1 : ETime.lt a b = true) (h2 : ETime.lt b c = true) :
    ETime.lt a c = true := by
  cases a <;> cases b <;> cases c <;> simp [ETime.lt] at * <;> omega

/-- `ETime.lt` is trichotomous. -/
lemma elt_tri (a b : ETime) : ETime.lt a b = true ∨ a = b ∨ ETime.lt b a = true := by
  cases a <;> cases b <;> simp [ETime.lt] <;> omega

/-- The inner two levels of the comparator: later stop first, ties by
later start first. -/
def lex2 (s1 t1 s2 t2 : ETime) : Bool :=
  if s1 != s2 then ETime.lt s2 s1 else ETime.lt t2 t1

/-- `lex2` is irreflexive. -/
lemma lex2_irrefl (s t : ETime) : lex2 s t s t = false := by
  simp [lex2, elt_irrefl]

/-- No self-loop for `ETime.lt`, equation form. -/
lemma elt_ne_of_lt {a b : ETime} (h : ETime.lt a b = true) : b ≠ a := by
  intro he
  subst he
  rw [elt_irrefl] at h
  cases h

/-- `lex2` is transitive. -/
lemma lex2_trans {s1 t1 s2 t2 s3 t3 : ETime}
    (h1 : lex2 s1 t1 s2 t2 = true) (h2 : lex2 s2 t2 s3 t3 = true) :
    lex2 s1 t1 s3 t3 = true := by
  unfold lex2 at *
  by_cases e12 : s1 = s2 <;> by_cases e23 : s2 = s3
  · subst e12; subst e23
    simp only [bne_self_eq_false, Bool.false_eq_true, if_false] at *
    exact elt_trans h2 h1
  · subst e12
    simp only [bne_self_eq_false, Bool.false_eq_true, if_false] at h1
    rw [if_pos (bne_iff_ne.mpr e23)] at h2 ⊢
    exact h2
  · subst e23
    rw [if_pos (bne_iff_ne.mpr e12)] at h1 ⊢
    exact h1
  · rw [if_pos (bne_iff_ne.mpr e12)] at h1
    rw [if_pos (bne_iff_ne.mpr e23)] at h2
    have h13 : ETime.lt s3 s1 = true := elt_trans h2 h1
    rw [if_pos (bne_iff_ne.mpr (elt_ne_of_lt h13))]
    exact h13

/-- From `x` strictly before `y` and `z` not strictly before `y`, `x` is
strictly before `z` (the comparator is a strict weak order). -/
lemma lex2_lt_of_lt_of_nlt {sx tx sy ty sz tz : ETime}
    (hxy : lex2 sx tx sy ty = true) (hzy : lex2 sz tz sy ty = false) :
    lex2 sx tx sz tz = true := by
  unfold lex2 at *
  by_cases exy : sx = sy <;> by_cases ezy : sz = sy
  · -- stops all equal: compare starts
    have exz : sx = sz := by rw [exy, ezy]
    subst exy
    subst ezy
    simp only [bne_self_eq_false, Bool.false_eq_true, if_false] at *
    rcases elt_tri tz ty with h | h | h
    · exact elt_trans h hxy
    · rw [h]; exact hxy
    · rw [h] at hzy; cases hzy
  · subst exy
    simp only [bne_self_eq_false, Bool.false_eq_true, if_false] at hxy
    rw [if_pos (bne_iff_ne.mpr ezy)] at hzy
    rcases elt_tri sz sx with h | h | h
    · rw [if_pos (bne_iff_ne.mpr (elt_ne_of_lt h))]
      exact h
    · exact absurd h ezy
    · rw [h] at hzy; cases hzy
  · subst ezy
    rw [if_pos (bne_iff_ne.mpr exy)] at hxy
    rw [if_pos (bne_iff_ne.mpr exy)]
    exact hxy
  · rw [if_pos (bne_iff_ne.mpr exy)] at hxy
    rw [if_pos (bne_iff_ne.mpr ezy)] at hzy
    rcases elt_tri sz sy with h | h | h
    · have h13 : ETime.lt sz sx = true := elt_trans h hxy
      rw [if_pos (bne_iff_ne.mpr (elt_ne_of_lt h13))]
      exact h13
    · exact absurd h ezy
    · rw [h] at hzy; cases hzy

/-- From `y` not strictly before `x` and `y` strictly before `r`, `x` is
strictly before `r` (the other weak-order composition). -/
lemma lex2_lt_of_nlt_of_lt {sy ty sx tx sr tr : ETime}
    (hyx : lex2 sy ty sx tx = false) (hyr : lex2 sy ty sr tr = true) :
    lex2 sx tx sr tr = true := by
  unfold lex2 at *
  by_cases eyx : sy = sx <;> by_cases eyr : sy = sr
  · have exr : sx = sr := by rw [← eyx, eyr]
    subst eyx
    subst eyr
    simp only [bne_self_eq_false, Bool.false_eq_true, if_false] at *
    rcases elt_tri tx ty with h | h | h
    · rw [h] at hyx; cases hyx
    · subst h; exact hyr
    · exact elt_trans hyr h
  · subst eyx
    simp only [bne_self_eq_false, Bool.false_eq_true, if_false] at hyx
    rw [if_pos (bne_iff_ne.mpr eyr)] at hyr
    rw [if_pos (bne_iff_ne.mpr eyr)]
    exact hyr
  · subst eyr
    rw [if_pos (bne_iff_ne.mpr eyx)] at hyx
    rcases elt_tri sx sy with h | h | h
    · rw [h] at hyx; cases hyx
    · exact absurd h.symm eyx
    · rw [if_pos (bne_iff_ne.mpr (elt_ne_of_lt h))]
      exact h
  · rw [if_pos (bne_iff_ne.mpr eyx)] at hyx
    rw [if_pos (bne_iff_ne.mpr eyr)] at hyr
    rcases elt_tri sx sy with h | h | h
    · rw [h] at hyx; cases hyx
    · exact absurd h.symm eyx
    · have hrx : ETime.lt sr sx = true := elt_trans hyr h
      rw [if_pos (bne_iff_ne.mpr (elt_ne_of_lt hrx))]
      exact hrx

/-- The comparator as the three-level lexicographic order (ongoing first,
then `lex2` on end and start times). -/
lemma eduBefore_eq (a b : Scored) :
    eduBefore a b =
      (if a.ongoing != b.ongoing then a.ongoing
       else lex2 a.stop a.start b.stop b.start) := rfl

/-- `eduBefore` is irreflexive. -/
lemma eduBefore_irrefl (a : Scored) : eduBefore a a = false := by
  rw [eduBefore_eq]
  simp [lex2_irrefl]

/-- `eduBefore` is transitive. -/
lemma eduBefore_trans {a b c : Scored}
    (h1 : eduBefore a b = true) (h2 : eduBefore b c = true) :
    eduBefore a c = true := by
  obtain ⟨ia, sta, spa, oa⟩ := a
  obtain ⟨ib, stb, spb, ob⟩ := b
  obtain ⟨ic, stc, spc, oc⟩ := c
  rw [eduBefore_eq] at h1 h2
  rw [eduBefore_eq]
  cases oa <;> cases ob <;> cases oc <;> simp_all <;>
    exact lex2_trans h1 h2

/-- Strict weak order composition for `eduBefore`: strictly before `y`
and `z` not strictly before `y` gives strictly before `z`. -/
lemma eduBefore_lt_of_lt_of_nlt {x y z : Scored}
    (hxy : eduBefore x y = true) (hzy : eduBefore z y = false) :
    eduBefore x z = true := by
  obtain ⟨ix, stx, spx, ox⟩ := x
  obtain ⟨iy, sty, spy, oy⟩ := y
  obtain ⟨iz, stz, spz, oz⟩ := z
  rw [eduBefore_eq] at hxy hzy
  rw [eduBefore_eq]
  cases ox <;> cases oy <;> cases oz <;> simp_all <;>
    exact lex2_lt_of_lt_of_nlt hxy hzy

/-- Strict weak order composition for `eduBefore`, other side. -/
lemma eduBefore_lt_of_nlt_of_lt {y x r : Scored}
    (hyx : eduBefore y x = false) (hyr : eduBefore y r = true) :
    eduBefore x r = true := by
  obtain ⟨iy, sty, spy, oy⟩ := y
  obtain ⟨ix, stx, spx, ox⟩ := x
  obtain ⟨ir, str2, spr, or2⟩ := r
  rw [eduBefore_eq] at hyx hyr
  rw [eduBefore_eq]
  cases oy <;> cases ox <;> cases or2 <;> simp_all <;>
    exact lex2_lt_of_nlt_of_lt hyx hyr

end Autofill

namespace Autofill

open JSValue

/-- Unfolding the minimum fold over a cons cell. -/
lemma chooseFirstMin_cons (x y : Scored) (ys : List Scored) :
    chooseFirstMin x (y :: ys) = chooseFirstMin (if eduBefore y x then y else x) ys := rfl

/-- The fold `chooseFirstMin` returns the element the stable sort by the
comparator puts first: it occurs in the list (at index `k`); no element
of the list is strictly before it; and it is strictly before every
element at an earlier index (so among comparator-equal minima it is the
first). -/
lemma chooseFirstMin_spec : ∀ (l : List Scored) (x : Scored),
    ∃ k : Nat, (x :: l).get? k = some (chooseFirstMin x l) ∧
      (∀ t ∈ x :: l, eduBefore t (chooseFirstMin x l) = false) ∧
      (∀ j, j < k → ∀ t, (x :: l).get? j = some t →
        eduBefore (chooseFirstMin x l) t = true) := by
  intro l
  induction l with
  | nil =>
    intro x
    refine ⟨0, rfl, ?_, ?_⟩
    · intro t ht
      rw [List.mem_singleton] at ht
      subst ht
      exact eduBefore_irrefl t
    · intro j hj
      exact absurd hj (Nat.not_lt_zero j)
  | cons y ys ih =>
    intro x
    rw [chooseFirstMin_cons]
    by_cases hyx : eduBefore y x = true
    · rw [if_pos hyx]
      obtain ⟨k', hget, hmin, hfirst⟩ := ih y
      have hrx : eduBefore (chooseFirstMin y ys) x = true := by
        cases k'v : k' with
        | zero =>
          rw [k'v] at hget
          have hy : y = chooseFirstMin y ys := Option.some.inj hget
          rw [← hy]
          exact hyx
        | succ n =>
          have h0 := hfirst 0 (by omega) y (by simp)
          exact eduBefore_trans h0 hyx
      refine ⟨k' + 1, by simpa using hget, ?_, ?_⟩
      · intro t ht
        rcases List.mem_cons.mp ht with rfl | ht'
        · cases hxr : eduBefore t (chooseFirstMin y ys) with
          | false => rfl
          | true =>
            have hcontr : eduBefore y (chooseFirstMin y ys) = true :=
              eduBefore_trans hyx hxr
            rw [hmin y (List.mem_cons_self y ys)] at hcontr
            cases hcontr
        · exact hmin t ht'
      · intro j hj t ht
        cases j with
        | zero =>
          have hx : x = t := Option.some.inj ht
          rw [← hx]
          exact hrx
        | succ j' =>
          exact hfirst j' (by omega) t (by simpa using ht)
    · have hyx' : eduBefore y x = false := by
        cases hv : eduBefore y x
        · rfl
        · exact absurd hv hyx
      rw [if_neg hyx]
      obtain ⟨k', hget, hmin, hfirst⟩ := ih x
      cases k'v : k' with
      | zero =>
        rw [k'v] at hget
        have hx : x = chooseFirstMin x ys := Option.some.inj hget
        refine ⟨0, by simpa using congrArg some hx, ?_, ?_⟩
        · intro t ht
          rcases List.mem_cons.mp ht with rfl | ht'
          · rw [← hx]
            exact eduBefore_irrefl t
          · rcases List.mem_cons.mp ht' with rfl | ht''
            · rw [← hx]
              exact hyx'
            · exact hmin t (List.mem_cons_of_mem x ht'')
        · intro j hj
          exact absurd hj (Nat.not_lt_zero j)
      | succ n =>
        rw [k'v] at hget hfirst
        have hrx : eduBefore (chooseFirstMin x ys) x = true :=
          hfirst 0 (by omega) x (by simp)
        refine ⟨n + 2, by simpa using hget, ?_, ?_⟩
        · intro t ht
          rcases List.mem_cons.mp ht with rfl | ht'
          · exact hmin t (List.mem_cons_self _ _)
          · rcases List.mem_cons.mp ht' with rfl | ht''
            · cases hyr : eduBefore t (chooseFirstMin x ys) with
              | false => rfl
              | true =>
                have hcontr : eduBefore x (chooseFirstMin x ys) = true :=
                  eduBefore_lt_of_nlt_of_lt hyx' hyr
                rw [hmin x (List.mem_cons_self x ys)] at hcontr
                cases hcontr
            · exact hmin t (List.mem_cons_of_mem x ht'')
        · intro j hj t ht
          cases j with
          | zero =>
            have hx : x = t := Option.some.inj ht
            rw [← hx]
            exact hrx
          | succ j2 =>
            cases j2 with
            | zero =>
              have hy : y = t := Option.some.inj ht
              rw [← hy]
              exact eduBefore_lt_of_lt_of_nlt hrx hyx'
            | succ j3 =>
              exact hfirst (j3 + 1) (by omega) t (by simpa using ht)

end Autofill

namespace Autofill

open JSValue

/-! ### C4: most-recent education selection -/

/-- C4.  For a non-empty education sequence, the resolver's most-recent
entry is the item of the first scored element under the comparator: it
occurs in the scored sequence, nothing is strictly before it, and it is
strictly before everything at an earlier index.  The comparator orders
ongoing entries (empty or "present" end) before entries with ends, then
by later end time, then by later start time; a non-empty, non-"present",
unparseable date scores negative infinity (the earliest possible time,
so it sorts last by recency), below every finite time, which is below
the "present" sentinel.  On the spec's two examples the resolver selects
the "present" entry and the "2021" entry respectively. -/
theorem C4_most_recent_selection (l : List JSValue) (h : l ≠ []) :
    (∃ s : Scored, ∃ k : Nat, (l.map scoreEdu).get? k = some s ∧
      mostRecentEduList l = some s.item ∧
      (∀ t ∈ l.map scoreEdu, eduBefore t s = false) ∧
      (∀ j, j < k → ∀ t, (l.map scoreEdu).get? j = some t → eduBefore s t = true)) ∧
    (∀ a b : Scored, a.ongoing = true → b.ongoing = false → eduBefore a b = true) ∧
    (∀ a b : Scored, a.ongoing = b.ongoing → a.stop ≠ b.stop →
      eduBefore a b = ETime.lt b.stop a.stop) ∧
    (∀ a b : Scored, a.ongoing = b.ongoing → a.stop = b.stop →
      eduBefore a b = ETime.lt b.start a.start) ∧
    (∀ v : JSValue, v.falsy = false → containsCI "present" (jsString v) = false →
      parseYMD (jsString v) = none → toTime v = .ninf) ∧
    (∀ z : Int, ETime.lt .ninf (.fin z) = true ∧ ETime.lt (.fin z) .pinf = true) ∧
    (get (.obj [("education", .arr [.obj [("school", .str "A"), ("end", .str "2019")],
        .obj [("school", .str "B"), ("end", .str "present")],
        .obj [("school", .str "C"), ("end", .str "2021")]])])
      "education.mostRecent.school" = .str "B") ∧
    (get (.obj [("education", .arr [.obj [("school", .str "A"), ("end", .str "2019")],
        .obj [("school", .str "C"), ("end", .str "2021")]])])
      "education.mostRecent.school" = .str "C") := by
  refine ⟨?_, ?_, ?_, ?_, ?_, fun z => ⟨rfl, rfl⟩, rfl, rfl⟩
  · cases l with
    | nil => exact absurd rfl h
    | cons v vs =>
      obtain ⟨k, hget, hmin, hfirst⟩ := chooseFirstMin_spec (vs.map scoreEdu) (scoreEdu v)
      exact ⟨chooseFirstMin (scoreEdu v) (vs.map scoreEdu), k, hget, rfl, hmin, hfirst⟩
  · intro a b ha hb
    rw [eduBefore_eq, ha, hb]
    rfl
  · intro a b hab hst
    rw [eduBefore_eq, hab, bne_self_eq_false]
    simp only [Bool.false_eq_true, if_false]
    unfold lex2
    rw [if_pos (bne_iff_ne.mpr hst)]
  · intro a b hab hst
    rw [eduBefore_eq, hab, bne_self_eq_false]
    simp only [Bool.false_eq_true, if_false]
    unfold lex2
    rw [hst, bne_self_eq_false]
    simp only [Bool.false_eq_true, if_false]
  · intro v h1 h2 h3
    unfold toTime
    rw [h1, h2, h3]
    rfl

/-- Witness for C4 at the spec's concrete three-entry input. -/
theorem C4_most_recent_selection_witness :
    (∃ s : Scored, ∃ k : Nat,
      (([.obj [("school", .str "A"), ("end", .str "2019")],
         .obj [("school", .str "B"), ("end", .str "present")],
         .obj [("school", .str "C"), ("end", .str "2021")]] : List JSValue).map
           scoreEdu).get? k = some s ∧
      mostRecentEduList
        [.obj [("school", .str "A"), ("end", .str "2019")],
         .obj [("school", .str "B"), ("end", .str "present")],
         .obj [("school", .str "C"), ("end", .str "2021")]] = some s.item ∧
      (∀ t ∈ ([.obj [("school", .str "A"), ("end", .str "2019")],
         .obj [("school", .str "B"), ("end", .str "present")],
         .obj [("school", .str "C"), ("end", .str "2021")]] : List JSValue).map scoreEdu,
        eduBefore t s = false) ∧
      (∀ j, j < k → ∀ t,
        (([.obj [("school", .str "A"), ("end", .str "2019")],
           .obj [("school", .str "B"), ("end", .str "present")],
           .obj [("school", .str "C"), ("end", .str "2021")]] : List JSValue).map
             scoreEdu).get? j = some t →
        eduBefore s t = true)) ∧
    get (.obj [("education", .arr [.obj [("school", .str "A"), ("end", .str "2019")],
        .obj [("school", .str "B"), ("end", .str "present")],
        .obj [("school", .str "C"), ("end", .str "2021")]])])
      "education.mostRecent.school" = .str "B" :=
  ⟨(C4_most_recent_selection
      [.obj [("school", .str "A"), ("end", .str "2019")],
       .obj [("school", .str "B"), ("end", .str "present")],
       .obj [("school", .str "C"), ("end", .str "2021")]]
      (by simp)).1,
    (C4_most_recent_selection
      [.obj [("school", .str "A"), ("end", .str "2019")],
       .obj [("school", .str "B"), ("end", .str "present")],
       .obj [("school", .str "C"), ("end", .str "2021")]]
      (by simp)).2.2.2.2.2.2.1⟩

end Autofill

namespace Autofill

open JSValue

/-! ### C10: shadow roots and label/group resolution scope -/

/-- Stripping shadow roots preserves the rendered text. -/
lemma textContent_strip (n : DomNode) : (stripShadowsN n).textContent = n.textContent := by
  cases n; rfl

mutual

/-- `getElementById` in the shadow-stripped document finds exactly the
stripped version of what it finds in the full document: the search never
enters shadow roots. -/
theorem findByIdN_strip (n : DomNode) (i : String) :
    findByIdN (stripShadowsN n) i = (findByIdN n i).map stripShadowsN := by
  cases n with
  | mk tag attrs text children shadow =>
    rw [stripShadowsN, findByIdN, findByIdN]
    by_cases hc : ((attrs.find? (fun p => p.1 == "id")).map (fun p => p.2) == some i) = true
    · rw [if_pos hc, if_pos hc]
      rfl
    · rw [if_neg hc, if_neg hc]
      exact findByIdT_strip children i

/-- List version of `findByIdN_strip`. -/
theorem findByIdT_strip (t : DomTree) (i : String) :
    findByIdT (stripShadowsT t) i = (findByIdT t i).map stripShadowsN := by
  cases t with
  | nil => rfl
  | cons h rest =>
    rw [stripShadowsT, findByIdT, findByIdT, findByIdN_strip]
    cases findByIdN h i with
    | some r => rfl
    | none =>
      simp only [Option.map_none']
      exact findByIdT_strip rest i

end

mutual

/-- `document.querySelector("label[for=...]")` never enters shadow
roots. -/
theorem queryLabelForN_strip (n : DomNode) (i : String) :
    queryLabelForN (stripShadowsN n) i = (queryLabelForN n i).map stripShadowsN := by
  cases n with
  | mk tag attrs text children shadow =>
    rw [stripShadowsN, queryLabelForN, queryLabelForN]
    by_cases hc : (tag == "label" &&
        (attrs.find? (fun p => p.1 == "for")).map (fun p => p.2) == some i) = true
    · rw [if_pos hc, if_pos hc]
      rfl
    · rw [if_neg hc, if_neg hc]
      exact queryLabelForT_strip children i

/-- List version of `queryLabelForN_strip`. -/
theorem queryLabelForT_strip (t : DomTree) (i : String) :
    queryLabelForT (stripShadowsT t) i = (queryLabelForT t i).map stripShadowsN := by
  cases t with
  | nil => rfl
  | cons h rest =>
    rw [stripShadowsT, queryLabelForT, queryLabelForT, queryLabelForN_strip]
    cases queryLabelForN h i with
    | some r => rfl
    | none =>
      simp only [Option.map_none']
      exact queryLabelForT_strip rest i

end

mutual

/-- The same-name group query (`document.querySelectorAll`) never enters
shadow roots. -/
theorem queryInputsByNameN_strip (n : DomNode) (nm : String) :
    queryInputsByNameN (stripShadowsN n) nm = (queryInputsByNameN n nm).map stripShadowsN := by
  cases n with
  | mk tag attrs text children shadow =>
    rw [stripShadowsN, queryInputsByNameN, queryInputsByNameN, List.map_append,
      queryInputsByNameT_strip children nm]
    by_cases hc : (tag == "input" &&
        (attrs.find? (fun p => p.1 == "name")).map (fun p => p.2) == some nm) = true
    · rw [if_pos hc, if_pos hc]
      rfl
    · rw [if_neg hc, if_neg hc]
      rfl

/-- List version of `queryInputsByNameN_strip`. -/
theorem queryInputsByNameT_strip (t : DomTree) (nm : String) :
    queryInputsByNameT (stripShadowsT t) nm = (queryInputsByNameT t nm).map stripShadowsN := by
  cases t with
  | nil => rfl
  | cons h rest =>
    rw [stripShadowsT, queryInputsByNameT, queryInputsByNameT, List.map_append,
      queryInputsByNameN_strip, queryInputsByNameT_strip rest nm]

end

/-- `labelText` reads the document only through `getElementById` and the
`label[for]` query, so shadow content in the document never contributes
to it. -/
lemma labelText_strip (doc : DomTree) (el : DomNode) (anc : List DomNode) :
    labelText (stripShadowsT doc) el anc = labelText doc el anc := by
  unfold labelText
  have ht : (DomNode.textContent ∘ stripShadowsN) = DomNode.textContent :=
    funext textContent_strip
  simp only [findByIdT_strip, queryLabelForT_strip, Option.map_map, ht]

end Autofill

namespace Autofill

open JSValue

/-- The descriptor builder inherits the document-scope invariance. -/
lemma candidates_strip (doc : DomTree) (el : DomNode) (anc : List DomNode) :
    candidates (stripShadowsT doc) el anc = candidates doc el anc := by
  unfold candidates
  rw [labelText_strip]

/-- The input element of the shadow-root scenario: no attributes at all. -/
def shadowInput : DomNode := .mk "input" [] "" .nil .nil

/-- A label wrapping the input, inside the shadow root. -/
def shadowLabel : DomNode := .mk "label" [] "Shadow Label" (.cons shadowInput .nil) .nil

/-- The legend of the fieldset, inside the shadow root. -/
def shadowLegend : DomNode := .mk "legend" [] "Leg" .nil .nil

/-- A fieldset enclosing the legend and label, inside the shadow root. -/
def shadowFieldset : DomNode :=
  .mk "fieldset" [] "" (.cons shadowLegend (.cons shadowLabel .nil)) .nil

/-- A host element whose open shadow root holds the whole form. -/
def shadowHost : DomNode := .mk "div" [] "" .nil (.cons shadowFieldset .nil)

/-- The document: just the host. -/
def shadowDoc : DomTree := .cons shadowHost .nil

/-- C10, counterexample.  For the input discovered inside the open
shadow root (located by `navigate`, which also computes its ancestor
chain within the shadow tree), `labelText` DOES find the shadow-scoped
wrapping label and the shadow-scoped enclosing fieldset legend — via
`closest`, which walks the element's own tree — so the descriptor is not
restricted to the element's own attributes: the element has no
attributes, yet its descriptor is "shadow label leg". -/
theorem C10_shadow_ancestor_labels_found :
    navigate shadowDoc []
        [⟨0, true⟩, ⟨0, false⟩, ⟨1, false⟩, ⟨0, false⟩] =
      some (shadowInput, [shadowLabel, shadowFieldset]) ∧
    shadowInput.attrs = [] ∧
    labelText shadowDoc shadowInput [shadowLabel, shadowFieldset] = "Shadow Label Leg" ∧
    candidates shadowDoc shadowInput [shadowLabel, shadowFieldset] = "shadow label leg" :=
  ⟨rfl, rfl, rfl, rfl⟩

/-- C10 as amended.  For elements inside open shadow roots, the
document-scope lookups — `label[for]` resolution, `aria-labelledby`
target resolution, and the same-name checkbox/radio group query — search
only the top-level document and never the shadow root containing the
element (formally: stripping every shadow root from the document changes
none of them, and `labelText` and the descriptor depend on the document
only through them); but the ancestor-based lookups (`closest` parent
label and enclosing fieldset legend) operate within the element's own
shadow tree, so shadow-scoped wrapping labels and legends ARE found, as
the scenario of the counterexample shows. -/
theorem C10_document_scope_of_label_resolution (doc : DomTree) (el : DomNode)
    (anc : List DomNode) (i nm : String) :
    (findByIdT (stripShadowsT doc) i = (findByIdT doc i).map stripShadowsN) ∧
    (queryLabelForT (stripShadowsT doc) i = (queryLabelForT doc i).map stripShadowsN) ∧
    (queryInputsByNameT (stripShadowsT doc) nm =
      (queryInputsByNameT doc nm).map stripShadowsN) ∧
    (labelText (stripShadowsT doc) el anc = labelText doc el anc) ∧
    (candidates (stripShadowsT doc) el anc = candidates doc el anc) ∧
    (labelText shadowDoc shadowInput [shadowLabel, shadowFieldset] = "Shadow Label Leg") :=
  ⟨findByIdT_strip doc i, queryLabelForT_strip doc i, queryInputsByNameT_strip doc nm,
    labelText_strip doc el anc, candidates_strip doc el anc, rfl⟩

end Autofill

namespace Autofill

open JSValue

/-! ### The page-level write model

`part_003`'s write path acts on the whole document: the checkbox/radio
branches of `setValue` click members found by the document-wide
`input[name=...]` query (checking `dataset.userEdited` only on the
element the fill is processing, line 199), and every `input`/`change`
event a write dispatches — text and select writes dispatch them
explicitly, checkbox/radio clicks fire them as activation behaviour on
the clicked element — is caught by the capture-phase document listeners
(lines 25–32), which check no `isTrusted` and set `userEdited` on the
event's target.  The model below threads the full document through the
pass, reading the live flags exactly where the source reads them. -/

/-- The mutable category of a form element on the page. -/
inductive PKind where
  | text (value : String)
  | sel (opts : List SelOpt) (value : String)
  | checkbox (checked : Bool)
  | radio (checked : Bool)
deriving DecidableEq, Repr

/-- One form element of the page: whether it is an `<input>` (the group
query sees only those), its `name` and `value` attributes, its resolved
label text, its descriptor, visibility, the user-edited dataset flag,
its mutable state, and the highlight. -/
structure PInput where
  tagInput : Bool
  name : String
  labelOf : String
  attrValue : String
  descriptor : String
  visible : Bool
  userEdited : Bool
  kind : PKind
  highlighted : Bool
deriving DecidableEq, Repr

/-- Pointwise update of the element at index `i`. -/
def updateAt (i : Nat) (f : PInput → PInput) : List PInput → List PInput
  | [] => []
  | x :: xs =>
    match i with
    | 0 => f x :: xs
    | j + 1 => x :: updateAt j f xs

/-- The checked state of an element (`target.checked`; `false` for
non-checkable inputs). -/
def pChecked (t : PInput) : Bool :=
  match t.kind with
  | .checkbox b => b
  | .radio b => b
  | _ => false

/-- The normalized member label `norm(labelText(target) || target.value)`. -/
def memberLabelP (t : PInput) : String :=
  norm (if t.labelOf ≠ "" then t.labelOf else t.attrValue)

/-- Unchecks every same-name radio input (native radio group behaviour
when one member is activated). -/
def uncheckRadios (nm : String) : List PInput → List PInput :=
  List.map (fun e =>
    match e.kind with
    | .radio _ => if e.tagInput && e.name == nm then { e with kind := .radio false } else e
    | _ => e)

/-- `HTMLElement.click()` on element `j`: a checkbox toggles and its
`input`/`change` events flag it through the capture listeners; a radio
becomes checked (unchecking its same-name group) and is flagged the same
way; clicking a text or select element fires neither event and changes
no state. -/
def clickAt (page : List PInput) (j : Nat) : List PInput :=
  match page.get? j with
  | none => page
  | some ej =>
    match ej.kind with
    | .checkbox b =>
      updateAt j (fun e => { e with kind := .checkbox (!b), userEdited := true }) page
    | .radio _ =>
      updateAt j (fun e => { e with kind := .radio true, userEdited := true })
        (uncheckRadios ej.name page)
    | _ => page

/-- The document-wide group query
`document.querySelectorAll('input[name=...]')`: the indices of the
`<input>` elements with that name, in document order (a static snapshot,
as `querySelectorAll` returns). -/
def groupIdx (page : List PInput) (nm : String) : List Nat :=
  (List.range page.length).filter (fun j =>
    ((page.get? j).map (fun e => e.tagInput && e.name == nm)).getD false)

/-- The radio branch loop: first group member whose label matches is
activated unless already checked; `clicked = 1` and break. -/
def radioScan (want : List String) : List PInput → List Nat → List PInput × Bool
  | page, [] => (page, false)
  | page, j :: rest =>
    match page.get? j with
    | none => radioScan want page rest
    | some t =>
      if wantMatches want (memberLabelP t) then
        (if pChecked t then page else clickAt page j, true)
      else radioScan want page rest

/-- The checkbox branch loop: every group member whose live checked
state differs from the desired state is clicked; counts the clicks. -/
def checkScan (want : List String) : List PInput → List Nat → Nat → List PInput × Nat
  | page, [], clicked => (page, clicked)
  | page, j :: rest, clicked =>
    match page.get? j with
    | none => checkScan want page rest clicked
    | some t =>
      if pChecked t != wantMatches want (memberLabelP t) then
        checkScan want (clickAt page j) rest (clicked + 1)
      else checkScan want page rest clicked

/-- `setValue` on the page: refuse if the target element is flagged
(line 199 — the only flag the write path ever checks); checkbox/radio
branches click through the document-wide group; select and text writes
set the value and dispatch events on the element itself, which the
capture listeners turn into its user-edited flag. -/
def pSetValue (page : List PInput) (i : Nat) (value : JSValue) : List PInput × Bool :=
  match page.get? i with
  | none => (page, false)
  | some el =>
    if el.userEdited then (page, false)
    else
      match el.kind with
      | .radio _ => radioScan (wantList value) page (groupIdx page el.name)
      | .checkbox _ =>
        let r := checkScan (wantList value) page (groupIdx page el.name) 0
        (r.1, r.2 > 0)
      | .sel opts _ =>
        let v := jsTrim (jsStringOrEmpty value)
        let exact := opts.find? (optExact v)
        let candidate :=
          match exact with
          | some o => some o
          | none => opts.find? (optContains v)
        match candidate with
        | some o =>
          (updateAt i (fun e => { e with kind := .sel opts o.value, userEdited := true }) page,
            true)
        | none => (page, false)
      | .text _ =>
        (updateAt i (fun e => { e with kind := .text (jsStringOrEmpty value), userEdited := true })
          page, true)

/-- The fill loop over the element snapshot (by index, in document
order); the user-edited flag is read live at each iteration, as the
source reads the live `dataset` (visibility is immutable here, so
checking it per element equals the source's pre-loop filter). -/
def pFillGo (table : AliasTable) (profile : JSValue) :
    List PInput → List Nat → List PInput × Nat
  | page, [] => (page, 0)
  | page, i :: rest =>
    let step : List PInput × Bool :=
      match page.get? i with
      | none => (page, false)
      | some el =>
        if !el.visible then (page, false)
        else if el.userEdited then (page, false)
        else
          match matchKey table el.descriptor with
          | none => (page, false)
          | some key =>
            let val := get profile key
            if absentValue val then (page, false)
            else pSetValue page i val
    let page' :=
      if step.2 then updateAt i (fun e => { e with highlighted := true }) step.1 else step.1
    let r := pFillGo table profile page' rest
    (r.1, (if step.2 then 1 else 0) + r.2)

/-- One fill pass of `part_003` over the whole page. -/
def pFill (table : AliasTable) (profile : JSValue) (page : List PInput) :
    List PInput × Nat :=
  pFillGo table profile page (List.range page.length)

end Autofill

namespace Autofill

open JSValue

/-! ### C2: the user-edited flag does not protect group members -/

/-- The unflagged checkbox the fill processes: labelled "Asian", in
group `g`, matching the race key. -/
def c2Sibling : PInput :=
  { tagInput := true, name := "g", labelOf := "Asian", attrValue := "",
    descriptor := "race", visible := true, userEdited := false,
    kind := .checkbox false, highlighted := false }

/-- The user-edited member of the same group: labelled "White", checked
by the human (which also set its user-edited flag). -/
def c2Edited : PInput :=
  { tagInput := true, name := "g", labelOf := "White", attrValue := "",
    descriptor := "race", visible := true, userEdited := true,
    kind := .checkbox true, highlighted := false }

/-- Alias table of the scenario. -/
def c2Table : AliasTable := [("demographics.race", [fun c => c == "race"])]

/-- Profile of the scenario: race/ethnicity `["Asian"]`. -/
def c2Profile : JSValue :=
  .obj [("demographics", .obj [("raceEthnicity", .arr [.str "Asian"])])]

/-- C2.  The code violates the claim: `setValue` checks the user-edited
flag only on the element the fill is processing (line 199) and then
clicks every mismatching member of the document-wide same-name group
(lines 220–228).  Here the single fill pass, while writing the unflagged
"Asian" sibling, clicks the user-edited "White" member and unchecks it —
a fill pass mutates the value of an element whose user-edited flag was
already set, exactly what the claim (and the spec's user-edited
protection) rules out. -/
theorem C2_group_click_mutates_user_edited :
    c2Edited.userEdited = true ∧
    pChecked c2Edited = true ∧
    ((pFill c2Table c2Profile [c2Sibling, c2Edited]).1.get? 1).map pChecked = some false ∧
    ((pFill c2Table c2Profile [c2Sibling, c2Edited]).1.get? 1).map
      (fun e => e.userEdited) = some true ∧
    (pFill c2Table c2Profile [c2Sibling, c2Edited]).2 = 1 :=
  ⟨rfl, rfl, rfl, rfl, rfl⟩

/-! ### C6: the fill's own events flag every written element -/

/-- The single text element of the second-pass scenario. -/
def c6Text : PInput :=
  { tagInput := true, name := "t", labelOf := "", attrValue := "",
    descriptor := "d", visible := true, userEdited := false,
    kind := .text "", highlighted := false }

/-- Alias table of the scenario. -/
def c6Table : AliasTable := [("k", [fun c => c == "d"])]

/-- Profile of the scenario. -/
def c6Profile : JSValue := .obj [("k", .str "v")]

/-- C6.  The code violates the claim: the first pass writes the text
element (count 1) and dispatches `input`/`change` on it; the capture
listeners — which check no `isTrusted` — set the element's user-edited
flag, so the second pass, with the profile unchanged and no intervening
human edit, skips the element and reports count 0 while the page state
is unchanged.  The second pass's count does not count the
successfully-written element again. -/
theorem C6_self_flagging_second_pass :
    (pFill c6Table c6Profile [c6Text]).2 = 1 ∧
    ((pFill c6Table c6Profile [c6Text]).1.get? 0).map (fun e => e.userEdited) = some true ∧
    ((pFill c6Table c6Profile [c6Text]).1.get? 0).map (fun e => e.kind) =
      some (.text "v") ∧
    (pFill c6Table c6Profile (pFill c6Table c6Profile [c6Text]).1).2 = 0 ∧
    (pFill c6Table c6Profile (pFill c6Table c6Profile [c6Text]).1).1 =
      (pFill c6Table c6Profile [c6Text]).1 :=
  ⟨rfl, rfl, rfl, rfl, rfl⟩

/-! ### C9: direct path resolution is total; non-object members exist -/

end Autofill
